import Mathlib

/-!
Shallow embedding of the OCR pipeline in `aiservice/utils/ocr.py` of the
GRIDVISION-AI-MODEL repository, together with proofs of its specified
properties.

Strings are modelled at the character level (`String` / `List Char`), with
the ASCII reading of the regex classes `\d` (decimal digits `0`-`9`) and
`\s` (space, tab, newline, carriage return, vertical tab, form feed); the
OCR engine is invoked with the whitelist `0123456789`, so the strings the
pipeline manipulates are ASCII.  Calls into the external libraries
(PIL decoding, pytesseract, OpenCV) are modelled by an abstract
environment that records what each external call would return, including
the possibility that it raises.
-/

/-- ASCII whitespace: the characters the regex class `\s` matches on the
ASCII fragment. -/
def isSpaceChar (c : Char) : Bool :=
  c = ' ' || c = '\t' || c = '\n' || c = '\x0b' || c = '\x0c' || c = '\r'

/-- Characters kept by the first substitution in `clean_ocr_text`:
`re.sub(r"[^\d\s\.\-\(\)O\|I\[\]]", "", text)` deletes every character that
is not a digit, whitespace, `.`, `-`, `(`, `)`, `O`, `|`, `I`, `[` or `]`. -/
def keepChar1 (c : Char) : Bool :=
  c.isDigit || isSpaceChar c ||
    c = '.' || c = '-' || c = '(' || c = ')' ||
    c = 'O' || c = '|' || c = 'I' || c = '[' || c = ']'

/-- The glyph substitutions of `clean_ocr_text`:
`text.replace("O","0").replace("I","1").replace("|","1").replace("[","1").replace("]","1")`.
Each replacement is of a single character, and no replacement produces a
character that a later replacement consumes, so the chain of `replace`
calls is a single character-wise map. -/
def substGlyph (c : Char) : Char :=
  if c = 'O' then '0'
  else if c = 'I' then '1'
  else if c = '|' then '1'
  else if c = '[' then '1'
  else if c = ']' then '1'
  else c

/-- The punctuation removed by `re.sub(r"[\.\-\(\)]", "", text)`. -/
def isPunct (c : Char) : Bool :=
  c = '.' || c = '-' || c = '(' || c = ')'

/-- Negation of `\d`, used by the leading/trailing strips
`re.sub(r"^[^\d]*", "", text)` and `re.sub(r"[^\d]*$", "", text)`. -/
def notDigit (c : Char) : Bool := !c.isDigit

/-- Embedding of `clean_ocr_text(text)` from `ocr.py`:
1. `if not text: return ""`;
2. delete characters outside digits, whitespace and the confusable set;
3. substitute the confusable glyphs;
4. delete `.`, `-`, `(`, `)`;
5. `text.replace(" ", "")` removes the space character (only U+0020);
6. strip the leading run of non-digits;
7. strip the trailing run of non-digits. -/
def clean_ocr_text (text : String) : String :=
  if text = "" then ""
  else
    let l1 := text.data.filter keepChar1
    let l2 := l1.map substGlyph
    let l3 := l2.filter (fun c => !isPunct c)
    let l4 := l3.filter (fun c => c != ' ')
    let l5 := l4.dropWhile notDigit
    let l6 := (l5.reverse.dropWhile notDigit).reverse
    String.mk l6

/-- Python `str.isdigit()` on the ASCII fragment: true for a non-empty
string all of whose characters are decimal digits. -/
def pyIsDigit (s : String) : Bool :=
  !(s == "") && s.data.all Char.isDigit

/-- Embedding of `is_valid_meter_reading(reading)` from `ocr.py`.
`len(set(reading))` is the number of distinct characters, modelled by the
length of `List.dedup`. -/
def is_valid_meter_reading (reading : String) : Bool :=
  if reading == "" || !(pyIsDigit reading) then false
  else if reading.length < 4 || reading.length > 7 then false
  else if reading.data.dedup.length == 1 then false
  else if reading.data.dedup.length < 2 then false
  else true

/-- The body of `is_valid_meter_reading` with the final
`unique_digits < 2` rule removed, for the redundancy claim. -/
def is_valid_meter_reading_nodup (reading : String) : Bool :=
  if reading == "" || !(pyIsDigit reading) then false
  else if reading.length < 4 || reading.length > 7 then false
  else if reading.data.dedup.length == 1 then false
  else true

/-- A detected external contour, reduced to the data `ocr.py` reads off
it: the bounding rectangle from `cv2.boundingRect` (the `y` coordinate is
never used) and the area from `cv2.contourArea`.  `contourArea` returns a
float whose values on lattice polygons are exact multiples of 1/2, so the
area is modelled as an exact rational. -/
structure Contour where
  x : Int
  w : Nat
  h : Nat
  area : ℚ

/-- The digit-like-region filter of `extract_digits_from_contours`:
`8 < w < 200 and 8 < h < 200 and area > 15`, then
`0.3 < aspect_ratio < 3` for `aspect_ratio = w / h`.  The division is
modelled exactly over ℚ: with integer `8 < w, h < 200` the float ratio
can never fall within rounding error of the cutoffs 0.3 and 3. -/
def isDigitRegion (c : Contour) : Bool :=
  if 8 < c.w ∧ c.w < 200 ∧ 8 < c.h ∧ c.h < 200 ∧ (15 : ℚ) < c.area then
    let aspect : ℚ := (c.w : ℚ) / (c.h : ℚ)
    if (3 / 10 : ℚ) < aspect ∧ aspect < 3 then true else false
  else false

/-- Number of accepted digit-like regions among the contours found at one
threshold: `len(digit_regions)` after the filtering loop. -/
def regionCount (contoursAt : Nat → List Contour) (tv : Nat) : Nat :=
  ((contoursAt tv).filter isDigitRegion).length

/-- The fixed threshold sweep `for thresh_val in [100, 127, 150, 180]`. -/
def contourThresholds : List Nat := [100, 127, 150, 180]

/-- The placeholder string `"".join([str(i % 10) for i in range(n)])`
built for an accepted-region count `n`. -/
def placeholderDigits (n : Nat) : String :=
  String.mk ((List.range n).map (fun i => Nat.digitChar (i % 10)))

/-- One iteration of the threshold sweep, updating the
`(best_digits, best_count)` state: a threshold whose accepted-region
count `n` lies in `[4, 7]` replaces the state when `n > best_count`.
The left-to-right sort of the regions by `x` is omitted because the
synthesized result depends only on the region count, not on the regions. -/
def sweepStep (contoursAt : Nat → List Contour) (st : String × Nat) (tv : Nat) :
    String × Nat :=
  let n := regionCount contoursAt tv
  if 4 ≤ n ∧ n ≤ 7 then
    if st.2 < n then (placeholderDigits n, n) else st
  else st

/-- Embedding of `extract_digits_from_contours(image)`.  The grayscale /
CLAHE / binarize / morphology / `findContours` chain is external OpenCV
computation; it is modelled by the function `contoursAt` giving the
contours found at each threshold, and `none` models the case in which the
body raises, which the `except` clause turns into `""`. -/
def extract_digits_from_contours (img : Option (Nat → List Contour)) : String :=
  match img with
  | none => ""
  | some contoursAt =>
    let final := contourThresholds.foldl (sweepStep contoursAt) ("", 0)
    if final.1 != "" then final.1 else ""

/-- The three strategies of `extract_meter_reading`, for invocation
traces. -/
inductive Strat where
  | primary
  | enhanced
  | contour
deriving DecidableEq

/-- Abstract environment for one call of `extract_meter_reading`: what
each external call would produce on the given image bytes.
`decodeOk = false` models `Image.open(...).convert("RGB")` raising (the
outer `except` returns `""`); `primaryRaw` / `enhancedRaw` are the raw
texts from the two `pytesseract.image_to_string` calls, `Except.error ()`
modelling the strategy body raising; `contours` is the per-threshold
contour data of the fallback, `none` modelling its body raising. -/
structure OcrEnv where
  decodeOk : Bool
  primaryRaw : Except Unit String
  enhancedRaw : Except Unit String
  contours : Option (Nat → List Contour)

/-- Candidate produced by Method 1 (original-image OCR): the raw text is
normalized by `clean_ocr_text` and kept only if `is_valid_meter_reading`
accepts it; an engine error is caught and yields no candidate. -/
def primaryCandidate (env : OcrEnv) : Option String :=
  match env.primaryRaw with
  | Except.error _ => none
  | Except.ok raw =>
    let t := clean_ocr_text raw
    if is_valid_meter_reading t then some t else none

/-- Candidate produced by Method 2 (enhanced grayscale OCR), with the same
normalize-validate-catch shape as Method 1. -/
def enhancedCandidate (env : OcrEnv) : Option String :=
  match env.enhancedRaw with
  | Except.error _ => none
  | Except.ok raw =>
    let t := clean_ocr_text raw
    if is_valid_meter_reading t then some t else none

/-- Method 3 (contour-based fallback) as run by the orchestrator:
`result = extract_digits_from_contours(...)`, returned when
`result and is_valid_meter_reading(result)`, else fall through to `""`. -/
def tryContourStep (env : OcrEnv) : String :=
  let result := extract_digits_from_contours env.contours
  if result != "" ∧ is_valid_meter_reading result then result else ""

/-- Embedding of `extract_meter_reading(image_bytes)` paired with the
trace of OCR strategies invoked, in order.  The early `return`s of the
Python body become the branches: decode failure is caught by the outer
`except` and returns `""` before any strategy runs; otherwise Method 1
runs, a valid candidate is returned at once, and only on failure does
Method 2 run, then Method 3. -/
def extract_meter_reading_run (env : OcrEnv) : String × List Strat :=
  if !env.decodeOk then ("", [])
  else
    match primaryCandidate env with
    | some t => (t, [Strat.primary])
    | none =>
      match enhancedCandidate env with
      | some t => (t, [Strat.primary, Strat.enhanced])
      | none => (tryContourStep env, [Strat.primary, Strat.enhanced, Strat.contour])

/-- The value returned by `extract_meter_reading`. -/
def extract_meter_reading (env : OcrEnv) : String :=
  (extract_meter_reading_run env).1

/-- The strategies invoked by one run of `extract_meter_reading`. -/
def strategyTrace (env : OcrEnv) : List Strat :=
  (extract_meter_reading_run env).2

/-- Characters that are digits or one of the five confusable glyphs
`clean_ocr_text` substitutes. -/
def confusableOrDigit (c : Char) : Bool :=
  c.isDigit || c = 'O' || c = 'I' || c = '|' || c = '[' || c = ']'

/-- The running best accepted-region count, folded over a threshold list
exactly as the sweep updates `best_count`. -/
def sweepBest (contoursAt : Nat → List Contour) (ts : List Nat) (b : Nat) : Nat :=
  ts.foldl
    (fun a tv =>
      let n := regionCount contoursAt tv
      if 4 ≤ n ∧ n ≤ 7 then (if a < n then n else a) else a) b

/-- The best usable accepted-region count over the full sweep, 0 when no
threshold has a count in [4, 7]. -/
def bestUsableCount (contoursAt : Nat → List Contour) : Nat :=
  sweepBest contoursAt contourThresholds 0

/-- Contour data for the C6 witness: four identical digit-like regions
(10 by 10 boxes of area 20) at every threshold. -/
def witContours : Nat → List Contour :=
  fun _ => [⟨0, 10, 10, 20⟩, ⟨1, 10, 10, 20⟩, ⟨2, 10, 10, 20⟩, ⟨3, 10, 10, 20⟩]

/-! ### Helper lemmas about the character pipeline -/

lemma head?_dropWhile_notDigit (l : List Char) (c : Char)
    (h : (l.dropWhile notDigit).head? = some c) : c.isDigit = true := by
  induction l with
  | nil => simp [List.dropWhile] at h
  | cons a t ih =>
    by_cases ha : notDigit a = true
    · rw [List.dropWhile_cons, if_pos ha] at h
      exact ih h
    · rw [List.dropWhile_cons, if_neg ha] at h
      simp only [List.head?_cons, Option.some.injEq] at h
      subst h
      simpa [notDigit] using ha

lemma getLast?_dropWhile (p : Char → Bool) (l : List Char)
    (h : l.dropWhile p ≠ []) : (l.dropWhile p).getLast? = l.getLast? := by
  induction l with
  | nil => simp [List.dropWhile] at h
  | cons a t ih =>
    by_cases ha : p a = true
    · have hd : (a :: t).dropWhile p = t.dropWhile p := by
        rw [List.dropWhile_cons, if_pos ha]
      rw [hd] at h ⊢
      have ht : t ≠ [] := by
        intro he
        subst he
        simp [List.dropWhile] at h
      rw [ih h]
      cases t with
      | nil => exact absurd rfl ht
      | cons b u => exact (List.getLast?_cons_cons).symm
    · rw [List.dropWhile_cons, if_neg ha]

lemma mem_of_mem_dropWhile {p : Char → Bool} {l : List Char} {c : Char}
    (h : c ∈ l.dropWhile p) : c ∈ l :=
  List.Sublist.mem h (List.dropWhile_sublist p)

lemma map_eq_self_of_mem {f : Char → Char} {l : List Char}
    (h : ∀ a ∈ l, f a = a) : l.map f = l := by
  induction l with
  | nil => rfl
  | cons a t ih =>
    simp only [List.map_cons, h a (List.mem_cons_self a t),
      ih (fun b hb => h b (List.mem_cons_of_mem a hb))]

lemma dropWhile_eq_self_of_all {p : Char → Bool} {l : List Char}
    (h : ∀ a ∈ l, p a = false) : l.dropWhile p = l := by
  cases l with
  | nil => rfl
  | cons a t =>
    rw [List.dropWhile_cons, if_neg]
    simp [h a (List.mem_cons_self a t)]

lemma substGlyph_eq_self_of_isDigit {a : Char} (h : a.isDigit = true) :
    substGlyph a = a := by
  unfold substGlyph
  split_ifs with h1 h2 h3 h4 h5
  · exact absurd h (by subst h1; decide)
  · exact absurd h (by subst h2; decide)
  · exact absurd h (by subst h3; decide)
  · exact absurd h (by subst h4; decide)
  · exact absurd h (by subst h5; decide)
  · rfl

lemma substGlyph_eq_self_of_isSpaceChar {a : Char} (h : isSpaceChar a = true) :
    substGlyph a = a := by
  unfold substGlyph
  split_ifs with h1 h2 h3 h4 h5
  · exact absurd h (by subst h1; decide)
  · exact absurd h (by subst h2; decide)
  · exact absurd h (by subst h3; decide)
  · exact absurd h (by subst h4; decide)
  · exact absurd h (by subst h5; decide)
  · rfl

lemma isPunct_eq_false_of_isDigit {a : Char} (h : a.isDigit = true) :
    isPunct a = false := by
  unfold isPunct
  have h1 : a ≠ '.' := by rintro rfl; exact absurd h (by decide)
  have h2 : a ≠ '-' := by rintro rfl; exact absurd h (by decide)
  have h3 : a ≠ '(' := by rintro rfl; exact absurd h (by decide)
  have h4 : a ≠ ')' := by rintro rfl; exact absurd h (by decide)
  simp [h1, h2, h3, h4]

lemma ne_space_of_isDigit {a : Char} (h : a.isDigit = true) : (a != ' ') = true := by
  have h1 : a ≠ ' ' := by rintro rfl; exact absurd h (by decide)
  simpa using h1

lemma notDigit_eq_false_of_isDigit {a : Char} (h : a.isDigit = true) :
    notDigit a = false := by
  simp [notDigit, h]

lemma substGlyph_class (a : Char) (h : keepChar1 a = true) :
    (substGlyph a).isDigit = true ∨ isSpaceChar (substGlyph a) = true ∨
      isPunct (substGlyph a) = true := by
  simp only [keepChar1, Bool.or_eq_true, decide_eq_true_eq] at h
  rcases h with ((((((((((hdig | hsp) | h) | h) | h) | h) | h) | h) | h) | h) | h)
  · left
    rw [substGlyph_eq_self_of_isDigit hdig]
    exact hdig
  · right; left
    rw [substGlyph_eq_self_of_isSpaceChar hsp]
    exact hsp
  all_goals subst h; decide

/-- The character list produced by `clean_ocr_text` on a non-empty input,
with the `let` chain spelled out. -/
lemma clean_data (s : String) (hs : s ≠ "") :
    (clean_ocr_text s).data =
      ((((((s.data.filter keepChar1).map substGlyph).filter
            (fun c => !isPunct c)).filter (fun c => c != ' ')).dropWhile
            notDigit).reverse.dropWhile notDigit).reverse := by
  simp only [clean_ocr_text, if_neg hs]

/-- Every character surviving `clean_ocr_text` is a digit or a
non-space whitespace character. -/
lemma clean_ocr_class (s : String) (c : Char)
    (h : c ∈ (clean_ocr_text s).data) :
    (c.isDigit || (isSpaceChar c && c != ' ')) = true := by
  by_cases hs : s = ""
  · subst hs
    simp [clean_ocr_text] at h
  · rw [clean_data s hs] at h
    rw [List.mem_reverse] at h
    have h2 := mem_of_mem_dropWhile h
    rw [List.mem_reverse] at h2
    have h3 := mem_of_mem_dropWhile h2
    rw [List.mem_filter] at h3
    obtain ⟨h4, hspace⟩ := h3
    rw [List.mem_filter] at h4
    obtain ⟨h5, hpunct⟩ := h4
    rw [List.mem_map] at h5
    obtain ⟨a, ha, rfl⟩ := h5
    rw [List.mem_filter] at ha
    obtain ⟨-, hk⟩ := ha
    rcases substGlyph_class a hk with hd | hsp | hp
    · simp [hd]
    · simp [hsp, hspace]
    · rw [hp] at hpunct
      simp at hpunct

/-! ### C7: output character classes of the Text Normalizer -/

/-- C7 counterexample: `clean_ocr_text` does NOT always return a
digit-only string.  The regex of step 2 keeps all whitespace but step 5
removes only the space character, so an interior newline survives:
`clean_ocr_text "1\n2" = "1\n2"`, which contains the non-digit `\n`. -/
theorem spec_C7_counterexample :
    clean_ocr_text "1\n2" = "1\n2" ∧
      ¬ (∀ c ∈ (clean_ocr_text "1\n2").data, c.isDigit = true) := by
  decide

/-- C7 (amended): every character of `clean_ocr_text`'s output is a digit
or a whitespace character other than space; punctuation and the space
character are removed and the leading and trailing runs of non-digits are
stripped, so the first and the last character of a non-empty output are
digits; but interior whitespace other than space (tab, newline, ...) can
survive between digits. -/
theorem spec_C7_amended (s : String) :
    (∀ c ∈ (clean_ocr_text s).data,
        (c.isDigit || (isSpaceChar c && c != ' ')) = true) ∧
    (∀ c, (clean_ocr_text s).data.head? = some c → c.isDigit = true) ∧
    (∀ c, (clean_ocr_text s).data.getLast? = some c → c.isDigit = true) := by
  refine ⟨fun c hc => clean_ocr_class s c hc, ?_, ?_⟩
  · intro c hc
    by_cases hs : s = ""
    · subst hs
      simp [clean_ocr_text] at hc
    · rw [clean_data s hs] at hc
      rw [List.head?_reverse] at hc
      have hne :
          (((((((s.data.filter keepChar1).map substGlyph).filter
              (fun c => !isPunct c)).filter (fun c => c != ' ')).dropWhile
              notDigit).reverse).dropWhile notDigit) ≠ [] := by
        intro he
        rw [he] at hc
        simp at hc
      rw [getLast?_dropWhile _ _ hne] at hc
      rw [List.getLast?_reverse] at hc
      exact head?_dropWhile_notDigit _ _ hc
  · intro c hc
    by_cases hs : s = ""
    · subst hs
      simp [clean_ocr_text] at hc
    · rw [clean_data s hs] at hc
      rw [List.getLast?_reverse] at hc
      exact head?_dropWhile_notDigit _ _ hc

/-- Witness for the amended C7 at the concrete input `"a1b2c"`, whose
cleaned form is `"12"`: the head of the output is the digit `1`. -/
theorem spec_C7_witness : Char.isDigit '1' = true :=
  (spec_C7_amended "a1b2c").2.1 '1' (by decide)

/-! ### C9: idempotence on clean digit strings -/

/-- C9: `clean_ocr_text` returns any all-digit string unchanged: every
step of the pipeline keeps every digit character in place. -/
theorem spec_C9_idempotent_on_digits (s : String)
    (h : ∀ c ∈ s.data, c.isDigit = true) : clean_ocr_text s = s := by
  by_cases hs : s = ""
  · subst hs
    rfl
  · apply String.ext
    rw [clean_data s hs]
    have h1 : s.data.filter keepChar1 = s.data :=
      List.filter_eq_self.mpr (fun a ha => by simp [keepChar1, h a ha])
    rw [h1]
    have h2 : s.data.map substGlyph = s.data :=
      map_eq_self_of_mem (fun a ha => substGlyph_eq_self_of_isDigit (h a ha))
    rw [h2]
    have h3 : s.data.filter (fun c => !isPunct c) = s.data :=
      List.filter_eq_self.mpr
        (fun a ha => by simp [isPunct_eq_false_of_isDigit (h a ha)])
    rw [h3]
    have h4 : s.data.filter (fun c => c != ' ') = s.data :=
      List.filter_eq_self.mpr (fun a ha => ne_space_of_isDigit (h a ha))
    rw [h4]
    have h5 : s.data.dropWhile notDigit = s.data :=
      dropWhile_eq_self_of_all
        (fun a ha => notDigit_eq_false_of_isDigit (h a ha))
    rw [h5]
    have h6 : s.data.reverse.dropWhile notDigit = s.data.reverse :=
      dropWhile_eq_self_of_all
        (fun a ha => notDigit_eq_false_of_isDigit (h a (List.mem_reverse.mp ha)))
    rw [h6, List.reverse_reverse]

/-- Witness for C9 at the concrete all-digit input `"1234"`. -/
theorem spec_C9_witness : clean_ocr_text "1234" = "1234" :=
  spec_C9_idempotent_on_digits "1234" (by decide)

/-! ### C8: the confusable-glyph substitutions -/

lemma substGlyph_isDigit_of_confusable {a : Char}
    (h : confusableOrDigit a = true) : (substGlyph a).isDigit = true := by
  simp only [confusableOrDigit, Bool.or_eq_true, decide_eq_true_eq] at h
  rcases h with ((((hd | h) | h) | h) | h) | h
  · rw [substGlyph_eq_self_of_isDigit hd]
    exact hd
  all_goals subst h; decide

/-- C8: on strings made of digits and the confusable glyphs,
`clean_ocr_text` is exactly the character-wise substitution
`O` to `0` and `I`, `|`, `[`, `]` each to `1`; in particular
`clean_ocr_text "12O34I" = "120341"`. -/
theorem spec_C8_glyph_substitution :
    (∀ s : String, (∀ c ∈ s.data, confusableOrDigit c = true) →
        clean_ocr_text s = String.mk (s.data.map substGlyph)) ∧
    clean_ocr_text "12O34I" = "120341" := by
  constructor
  · intro s h
    by_cases hs : s = ""
    · subst hs
      rfl
    · apply String.ext
      rw [clean_data s hs]
      show _ = s.data.map substGlyph
      have h1 : s.data.filter keepChar1 = s.data :=
        List.filter_eq_self.mpr (fun a ha => by
          have hc := h a ha
          simp only [confusableOrDigit, Bool.or_eq_true, decide_eq_true_eq] at hc
          simp only [keepChar1, Bool.or_eq_true, decide_eq_true_eq]
          tauto)
      rw [h1]
      have hall : ∀ a ∈ s.data.map substGlyph, a.isDigit = true := by
        intro a ha
        rw [List.mem_map] at ha
        obtain ⟨b, hb, rfl⟩ := ha
        exact substGlyph_isDigit_of_confusable (h b hb)
      have h3 : (s.data.map substGlyph).filter (fun c => !isPunct c) =
          s.data.map substGlyph :=
        List.filter_eq_self.mpr
          (fun a ha => by simp [isPunct_eq_false_of_isDigit (hall a ha)])
      rw [h3]
      have h4 : (s.data.map substGlyph).filter (fun c => c != ' ') =
          s.data.map substGlyph :=
        List.filter_eq_self.mpr (fun a ha => ne_space_of_isDigit (hall a ha))
      rw [h4]
      have h5 : (s.data.map substGlyph).dropWhile notDigit =
          s.data.map substGlyph :=
        dropWhile_eq_self_of_all
          (fun a ha => notDigit_eq_false_of_isDigit (hall a ha))
      rw [h5]
      have h6 : (s.data.map substGlyph).reverse.dropWhile notDigit =
          (s.data.map substGlyph).reverse :=
        dropWhile_eq_self_of_all
          (fun a ha =>
            notDigit_eq_false_of_isDigit (hall a (List.mem_reverse.mp ha)))
      rw [h6, List.reverse_reverse]
  · decide

/-- Witness for C8 at the concrete input `"O[I]"`, all of whose
characters are confusable glyphs. -/
theorem spec_C8_witness : clean_ocr_text "O[I]" = "0111" :=
  spec_C8_glyph_substitution.1 "O[I]" (by decide)

/-! ### C2: characterization of the Plausibility Validator -/

/-- C2: `is_valid_meter_reading` accepts exactly the non-empty all-digit
strings of length 4 to 7 with at least two distinct characters. -/
theorem spec_C2_validator_characterization (s : String) :
    is_valid_meter_reading s = true ↔
      (s ≠ "" ∧ (∀ c ∈ s.data, c.isDigit = true) ∧
        4 ≤ s.length ∧ s.length ≤ 7 ∧ 2 ≤ s.data.dedup.length) := by
  unfold is_valid_meter_reading pyIsDigit
  constructor
  · intro hv
    split_ifs at hv with g1 g2 g3 g4
    simp at g1 g2 g3 g4
    exact ⟨g1.1, g1.2, g2.1, g2.2, g4⟩
  · rintro ⟨hne, hdig, h4, h7, hd⟩
    split_ifs with g1 g2 g3 g4
    · exfalso
      simp [hne, List.all_eq_true] at g1
      obtain ⟨c, hc, hcd⟩ := g1
      rw [hdig c hc] at hcd
      exact absurd hcd (by simp)
    · exfalso
      simp at g2
      omega
    · exfalso
      simp at g3
      omega
    · exfalso
      simp at g4
      omega
    · rfl

/-- Witness for C2 at the concrete accepted reading `"1234"`. -/
theorem spec_C2_witness : is_valid_meter_reading "1234" = true :=
  (spec_C2_validator_characterization "1234").mpr (by decide)

/-! ### C10: redundancy of the fewer-than-two-distinct-digits rule -/

/-- C10: removing the `unique_digits < 2` rule does not change
`is_valid_meter_reading` on any input: a string that reaches that rule is
non-empty, so it has at least one distinct character, and exactly one
distinct character was already rejected by the all-same-digit rule. -/
theorem spec_C10_distinct_rule_redundant (s : String) :
    is_valid_meter_reading s = is_valid_meter_reading_nodup s := by
  unfold is_valid_meter_reading is_valid_meter_reading_nodup
  split_ifs with h1 h2 h3 h4
  · rfl
  · rfl
  · rfl
  · simp only [Bool.or_eq_true, beq_iff_eq, Bool.not_eq_eq_eq_not, Bool.not_true,
      Bool.and_eq_true, bne_iff_ne, ne_eq, List.all_eq_true, not_or] at h1
    obtain ⟨hne, -⟩ := h1
    have hdata : s.data ≠ [] := by
      intro he
      exact hne (String.ext he)
    have hdd : s.data.dedup ≠ [] := by
      intro he
      exact hdata ((List.dedup_eq_nil s.data).mp he)
    have hlen : 1 ≤ s.data.dedup.length := by
      cases hh : s.data.dedup with
      | nil => exact absurd hh hdd
      | cons a t => simp [hh]
    simp only [beq_iff_eq] at h3
    omega
  · rfl

/-! ### Helper lemmas about the threshold sweep -/

lemma sweepBest_cons (contoursAt : Nat → List Contour) (a : Nat) (rest : List Nat)
    (b : Nat) :
    sweepBest contoursAt (a :: rest) b =
      sweepBest contoursAt rest
        (if 4 ≤ regionCount contoursAt a ∧ regionCount contoursAt a ≤ 7 then
          (if b < regionCount contoursAt a then regionCount contoursAt a else b)
        else b) := rfl

lemma placeholderDigits_length (n : Nat) : (placeholderDigits n).length = n := by
  simp [placeholderDigits, String.length]

lemma placeholderDigits_ne_empty {n : Nat} (h : n ≠ 0) :
    placeholderDigits n ≠ "" := by
  intro he
  have hl := congrArg String.length he
  rw [placeholderDigits_length] at hl
  exact h hl

lemma sweep_foldl (contoursAt : Nat → List Contour) (ts : List Nat) (b : Nat) :
    ts.foldl (sweepStep contoursAt) (placeholderDigits b, b) =
      (placeholderDigits (sweepBest contoursAt ts b),
        sweepBest contoursAt ts b) := by
  induction ts generalizing b with
  | nil => rfl
  | cons t rest ih =>
    rw [List.foldl_cons]
    have hstep : sweepStep contoursAt (placeholderDigits b, b) t =
        (placeholderDigits
            (if 4 ≤ regionCount contoursAt t ∧ regionCount contoursAt t ≤ 7 then
              (if b < regionCount contoursAt t then regionCount contoursAt t else b)
            else b),
          if 4 ≤ regionCount contoursAt t ∧ regionCount contoursAt t ≤ 7 then
            (if b < regionCount contoursAt t then regionCount contoursAt t else b)
          else b) := by
      show (if 4 ≤ regionCount contoursAt t ∧ regionCount contoursAt t ≤ 7 then
          if b < regionCount contoursAt t then
            (placeholderDigits (regionCount contoursAt t), regionCount contoursAt t)
          else (placeholderDigits b, b)
        else (placeholderDigits b, b)) = _
      split_ifs with h1 h2 <;> rfl
    rw [hstep, ih, sweepBest_cons]

lemma extract_contours_eq (contoursAt : Nat → List Contour) :
    extract_digits_from_contours (some contoursAt) =
      if bestUsableCount contoursAt = 0 then ""
      else placeholderDigits (bestUsableCount contoursAt) := by
  have hrw : extract_digits_from_contours (some contoursAt) =
      (if ((List.foldl (sweepStep contoursAt) (placeholderDigits 0, 0)
            contourThresholds).1 != "") = true
       then (List.foldl (sweepStep contoursAt) (placeholderDigits 0, 0)
            contourThresholds).1
       else "") := rfl
  rw [hrw, sweep_foldl]
  unfold bestUsableCount
  by_cases hb : sweepBest contoursAt contourThresholds 0 = 0
  · rw [if_pos hb, hb]
    rfl
  · rw [if_neg hb]
    have hne := placeholderDigits_ne_empty hb
    simp [hne]

lemma le_sweepBest (contoursAt : Nat → List Contour) (ts : List Nat) :
    ∀ b, b ≤ sweepBest contoursAt ts b := by
  induction ts with
  | nil => intro b; exact Nat.le_refl b
  | cons a rest ih =>
    intro b
    rw [sweepBest_cons]
    refine Nat.le_trans ?_ (ih _)
    split_ifs with h1 h2
    · exact Nat.le_of_lt h2
    · exact Nat.le_refl b
    · exact Nat.le_refl b

lemma count_le_sweepBest (contoursAt : Nat → List Contour) (ts : List Nat) {t : Nat} :
    ∀ b, t ∈ ts →
      4 ≤ regionCount contoursAt t ∧ regionCount contoursAt t ≤ 7 →
      regionCount contoursAt t ≤ sweepBest contoursAt ts b := by
  induction ts with
  | nil => intro b ht _; cases ht
  | cons a rest ih =>
    intro b ht hu
    rcases List.mem_cons.mp ht with rfl | hmem
    · rw [sweepBest_cons, if_pos hu]
      refine Nat.le_trans ?_ (le_sweepBest contoursAt rest _)
      split_ifs with h2
      · exact Nat.le_refl _
      · exact Nat.le_of_not_lt h2
    · rw [sweepBest_cons]
      exact ih _ hmem hu

lemma sweepBest_eq_or_mem (contoursAt : Nat → List Contour) (ts : List Nat) :
    ∀ b, sweepBest contoursAt ts b = b ∨
      ∃ t ∈ ts, (4 ≤ regionCount contoursAt t ∧ regionCount contoursAt t ≤ 7) ∧
        sweepBest contoursAt ts b = regionCount contoursAt t := by
  induction ts with
  | nil => intro b; left; rfl
  | cons a rest ih =>
    intro b
    rw [sweepBest_cons]
    split_ifs with h1 h2
    · rcases ih (regionCount contoursAt a) with h | ⟨t, htm, htu, heq⟩
      · right
        exact ⟨a, List.mem_cons_self a rest, h1, h⟩
      · right
        exact ⟨t, List.mem_cons_of_mem a htm, htu, heq⟩
    · rcases ih b with h | ⟨t, htm, htu, heq⟩
      · left; exact h
      · right
        exact ⟨t, List.mem_cons_of_mem a htm, htu, heq⟩
    · rcases ih b with h | ⟨t, htm, htu, heq⟩
      · left; exact h
      · right
        exact ⟨t, List.mem_cons_of_mem a htm, htu, heq⟩

/-- On a non-empty result the sweep selected a usable threshold whose
count is the result length and is maximal among usable thresholds. -/
lemma contour_result_selected (contoursAt : Nat → List Contour)
    (h : extract_digits_from_contours (some contoursAt) ≠ "") :
    ∃ tv ∈ contourThresholds,
      (4 ≤ regionCount contoursAt tv ∧ regionCount contoursAt tv ≤ 7) ∧
      extract_digits_from_contours (some contoursAt) =
        placeholderDigits (regionCount contoursAt tv) ∧
      ∀ u ∈ contourThresholds,
        4 ≤ regionCount contoursAt u ∧ regionCount contoursAt u ≤ 7 →
          regionCount contoursAt u ≤ regionCount contoursAt tv := by
  rw [extract_contours_eq] at h ⊢
  by_cases hb : bestUsableCount contoursAt = 0
  · rw [if_pos hb] at h
    exact absurd rfl h
  · rw [if_neg hb] at h ⊢
    rcases sweepBest_eq_or_mem contoursAt contourThresholds 0 with h0 | ⟨t, htm, htu, heq⟩
    · exact absurd h0 hb
    · refine ⟨t, htm, htu, ?_, ?_⟩
      · rw [show bestUsableCount contoursAt = regionCount contoursAt t from heq]
      · intro u hum huu
        have := count_le_sweepBest contoursAt contourThresholds 0 hum huu
        rw [show sweepBest contoursAt contourThresholds 0 = regionCount contoursAt t
          from heq] at this
        exact this

/-- Every non-empty contour result is one of the four placeholders, and
the Validator accepts each of them. -/
lemma contour_result_mem (img : Option (Nat → List Contour))
    (h : extract_digits_from_contours img ≠ "") :
    extract_digits_from_contours img ∈
        (["0123", "01234", "012345", "0123456"] : List String) ∧
      is_valid_meter_reading (extract_digits_from_contours img) = true := by
  match img with
  | none => exact absurd rfl h
  | some contoursAt =>
    obtain ⟨t, -, ⟨h4, h7⟩, heq, -⟩ := contour_result_selected contoursAt h
    rw [heq]
    interval_cases hn : regionCount contoursAt t <;> exact ⟨by decide, by decide⟩

/-! ### C5: the threshold sweep of the contour fallback -/

/-- C5: on any per-threshold contour data, the fallback's result is
determined by the sweep over the fixed thresholds 100, 127, 150, 180:
it is the placeholder sized to the best usable accepted-region count
(`""` when that count is 0, i.e. when no threshold is usable); when no
threshold has an accepted-region count in [4, 7] the result is `""`; and
a non-empty result has the length of a usable threshold's count that is
maximal among all usable thresholds. -/
theorem spec_C5_threshold_sweep (contoursAt : Nat → List Contour) :
    extract_digits_from_contours (some contoursAt) =
      (if bestUsableCount contoursAt = 0 then ""
       else placeholderDigits (bestUsableCount contoursAt)) ∧
    ((∀ tv ∈ contourThresholds,
        ¬(4 ≤ regionCount contoursAt tv ∧ regionCount contoursAt tv ≤ 7)) →
      extract_digits_from_contours (some contoursAt) = "") ∧
    (extract_digits_from_contours (some contoursAt) ≠ "" →
      ∃ tv ∈ contourThresholds,
        (4 ≤ regionCount contoursAt tv ∧ regionCount contoursAt tv ≤ 7) ∧
        (extract_digits_from_contours (some contoursAt)).length =
          regionCount contoursAt tv ∧
        ∀ u ∈ contourThresholds,
          4 ≤ regionCount contoursAt u ∧ regionCount contoursAt u ≤ 7 →
            regionCount contoursAt u ≤ regionCount contoursAt tv) := by
  refine ⟨extract_contours_eq contoursAt, ?_, ?_⟩
  · intro hnone
    rw [extract_contours_eq contoursAt]
    have hb : bestUsableCount contoursAt = 0 := by
      unfold bestUsableCount
      rcases sweepBest_eq_or_mem contoursAt contourThresholds 0 with h0 | ⟨t, htm, htu, -⟩
      · exact h0
      · exact absurd htu (hnone t htm)
    rw [if_pos hb]
  · intro hne
    obtain ⟨tv, htm, htu, heq, hmax⟩ := contour_result_selected contoursAt hne
    refine ⟨tv, htm, htu, ?_, hmax⟩
    rw [heq, placeholderDigits_length]

/-- Witness for C5: with no contours at any threshold, no threshold is
usable and the fallback returns the empty string. -/
theorem spec_C5_witness :
    extract_digits_from_contours (some (fun _ => ([] : List Contour))) = "" :=
  (spec_C5_threshold_sweep (fun _ => [])).2.1 (by decide)

/-! ### C6: the placeholder outputs and their effect on the pipeline -/

/-- C6: every non-empty string the contour fallback returns is one of
the four placeholders `"0123"`, `"01234"`, `"012345"`, `"0123456"`, each
of which the Validator accepts; hence when the first two strategies fail
and the fallback finds a usable threshold, `extract_meter_reading`
returns this fixed placeholder, independent of the digits in the image. -/
theorem spec_C6_placeholder_values :
    (∀ img : Option (Nat → List Contour),
      extract_digits_from_contours img ≠ "" →
        extract_digits_from_contours img ∈
            (["0123", "01234", "012345", "0123456"] : List String) ∧
          is_valid_meter_reading (extract_digits_from_contours img) = true) ∧
    (∀ env : OcrEnv, env.decodeOk = true → primaryCandidate env = none →
      enhancedCandidate env = none →
      extract_digits_from_contours env.contours ≠ "" →
        extract_meter_reading env = extract_digits_from_contours env.contours) := by
  constructor
  · exact fun img h => contour_result_mem img h
  · intro env hdec hp he hne
    unfold extract_meter_reading extract_meter_reading_run
    rw [hdec]
    simp only [Bool.not_true, Bool.false_eq_true, if_false, hp, he]
    show tryContourStep env = _
    unfold tryContourStep
    obtain ⟨-, hval⟩ := contour_result_mem env.contours hne
    rw [if_pos]
    constructor
    · simpa using hne
    · exact hval

/-- Witness for C6: with both OCR strategies raising and four accepted
regions at every threshold, the pipeline returns the placeholder
`"0123"`. -/
theorem spec_C6_witness :
    extract_meter_reading ⟨true, Except.error (), Except.error (), some witContours⟩ =
      "0123" := by
  have hc : ∀ tv, regionCount witContours tv = 4 := by
    intro tv
    norm_num [witContours, regionCount, isDigitRegion, List.filter]
  have hres : extract_digits_from_contours (some witContours) = "0123" := by
    have hrw : extract_digits_from_contours (some witContours) =
        (if ((List.foldl (sweepStep witContours) (placeholderDigits 0, 0)
              contourThresholds).1 != "") = true
         then (List.foldl (sweepStep witContours) (placeholderDigits 0, 0)
              contourThresholds).1
         else "") := rfl
    rw [hrw, sweep_foldl]
    have hb : sweepBest witContours contourThresholds 0 = 4 := by
      rw [show contourThresholds = [100, 127, 150, 180] from rfl]
      rw [sweepBest_cons, hc, sweepBest_cons, hc, sweepBest_cons, hc, sweepBest_cons, hc]
      norm_num [sweepBest]
    rw [hb]
    decide
  have h := spec_C6_placeholder_values.2
    ⟨true, Except.error (), Except.error (), some witContours⟩ rfl rfl rfl
    (by rw [show (⟨true, Except.error (), Except.error (),
        some witContours⟩ : OcrEnv).contours = some witContours from rfl, hres]
        decide)
  rw [h]
  exact hres

/-! ### Helper lemmas about the orchestrator -/

lemma primaryCandidate_valid {env : OcrEnv} {t : String}
    (h : primaryCandidate env = some t) : is_valid_meter_reading t = true := by
  unfold primaryCandidate at h
  cases henv : env.primaryRaw with
  | error e =>
    rw [henv] at h
    exact absurd h (by simp)
  | ok raw =>
    rw [henv] at h
    have h2 : (if is_valid_meter_reading (clean_ocr_text raw) = true
        then some (clean_ocr_text raw) else none) = some t := h
    by_cases hv : is_valid_meter_reading (clean_ocr_text raw) = true
    · rw [if_pos hv] at h2
      obtain rfl := Option.some.inj h2
      exact hv
    · rw [if_neg hv] at h2
      exact absurd h2 (by simp)

lemma enhancedCandidate_valid {env : OcrEnv} {t : String}
    (h : enhancedCandidate env = some t) : is_valid_meter_reading t = true := by
  unfold enhancedCandidate at h
  cases henv : env.enhancedRaw with
  | error e =>
    rw [henv] at h
    exact absurd h (by simp)
  | ok raw =>
    rw [henv] at h
    have h2 : (if is_valid_meter_reading (clean_ocr_text raw) = true
        then some (clean_ocr_text raw) else none) = some t := h
    by_cases hv : is_valid_meter_reading (clean_ocr_text raw) = true
    · rw [if_pos hv] at h2
      obtain rfl := Option.some.inj h2
      exact hv
    · rw [if_neg hv] at h2
      exact absurd h2 (by simp)

lemma tryContourStep_cases (env : OcrEnv) :
    tryContourStep env = "" ∨
      is_valid_meter_reading (tryContourStep env) = true := by
  show (if (extract_digits_from_contours env.contours != "") = true ∧
        is_valid_meter_reading (extract_digits_from_contours env.contours) = true
      then extract_digits_from_contours env.contours else "") = "" ∨
    is_valid_meter_reading
      (if (extract_digits_from_contours env.contours != "") = true ∧
        is_valid_meter_reading (extract_digits_from_contours env.contours) = true
      then extract_digits_from_contours env.contours else "") = true
  split
  · rename_i hcond
    right
    exact hcond.2
  · left
    rfl

/-! ### C1: only validated candidates are returned -/

/-- C1: for every environment, `extract_meter_reading` returns either
the empty string or a string that `is_valid_meter_reading` accepts; it
never returns a candidate the Validator rejected. -/
theorem spec_C1_returns_only_validated (env : OcrEnv) :
    extract_meter_reading env = "" ∨
      is_valid_meter_reading (extract_meter_reading env) = true := by
  unfold extract_meter_reading extract_meter_reading_run
  split
  · left
    rfl
  · cases hp : primaryCandidate env with
    | some t =>
      simp only [hp]
      right
      exact primaryCandidate_valid hp
    | none =>
      simp only [hp]
      cases he : enhancedCandidate env with
      | some t =>
        simp only [he]
        right
        exact enhancedCandidate_valid he
      | none =>
        simp only [he]
        exact tryContourStep_cases env

/-! ### C3: failure isolation and the empty-string fallback -/

lemma emr_eq_of_parts {env env' : OcrEnv}
    (hd : env.decodeOk = env'.decodeOk)
    (hp : primaryCandidate env = primaryCandidate env')
    (he : enhancedCandidate env = enhancedCandidate env')
    (hc : tryContourStep env = tryContourStep env') :
    extract_meter_reading env = extract_meter_reading env' := by
  unfold extract_meter_reading extract_meter_reading_run
  rw [hd, hp, he, hc]

/-- C3: each strategy is failure-isolated.  A raising primary (resp.
enhanced) pytesseract call leaves the run equal to a run whose raw text
is garbage that fails validation, so the next strategy is tried; a
raising contour body behaves like one that found no regions; and when no
strategy yields a valid candidate the function returns `""` instead of
propagating an exception (the embedding is a total function: every
external failure mode is a value of `OcrEnv`, none escapes). -/
theorem spec_C3_error_isolation (env : OcrEnv) :
    (env.primaryRaw = Except.error () →
      extract_meter_reading env =
        extract_meter_reading { env with primaryRaw := Except.ok "" }) ∧
    (env.enhancedRaw = Except.error () →
      extract_meter_reading env =
        extract_meter_reading { env with enhancedRaw := Except.ok "" }) ∧
    (env.contours = none →
      extract_meter_reading env =
        extract_meter_reading { env with contours := some (fun _ => []) }) ∧
    (primaryCandidate env = none → enhancedCandidate env = none →
      tryContourStep env = "" → extract_meter_reading env = "") := by
  refine ⟨?_, ?_, ?_, ?_⟩
  · intro herr
    refine emr_eq_of_parts rfl ?_ rfl rfl
    unfold primaryCandidate
    rw [herr]
    rfl
  · intro herr
    refine emr_eq_of_parts rfl rfl ?_ rfl
    unfold enhancedCandidate
    rw [herr]
    rfl
  · intro herr
    refine emr_eq_of_parts rfl rfl rfl ?_
    unfold tryContourStep
    rw [herr]
    rfl
  · intro hp he hc
    unfold extract_meter_reading extract_meter_reading_run
    split
    · rfl
    · simp only [hp, he]
      exact hc

/-- Witness for C3: a run whose primary OCR call raises returns the same
reading as the run whose primary call produced unusable text. -/
theorem spec_C3_witness :
    extract_meter_reading ⟨true, Except.error (), Except.ok "1234", none⟩ =
      extract_meter_reading ⟨true, Except.ok "", Except.ok "1234", none⟩ :=
  (spec_C3_error_isolation ⟨true, Except.error (), Except.ok "1234", none⟩).1 rfl

/-! ### C4: fixed strategy order and short-circuiting -/

/-- C4: the invocation trace of a run is a prefix of
Primary, Enhanced, Contour — each strategy runs at most once, in that
fixed order; a valid primary candidate stops the run after Primary, and
a valid enhanced candidate stops it after Enhanced. -/
theorem spec_C4_strategy_order (env : OcrEnv) :
    (strategyTrace env = [] ∨ strategyTrace env = [Strat.primary] ∨
      strategyTrace env = [Strat.primary, Strat.enhanced] ∨
      strategyTrace env = [Strat.primary, Strat.enhanced, Strat.contour]) ∧
    (∀ st : Strat, (strategyTrace env).count st ≤ 1) ∧
    ((primaryCandidate env).isSome = true → env.decodeOk = true →
      strategyTrace env = [Strat.primary]) ∧
    (primaryCandidate env = none → (enhancedCandidate env).isSome = true →
      env.decodeOk = true →
      strategyTrace env = [Strat.primary, Strat.enhanced]) := by
  have hcase : strategyTrace env = [] ∨ strategyTrace env = [Strat.primary] ∨
      strategyTrace env = [Strat.primary, Strat.enhanced] ∨
      strategyTrace env = [Strat.primary, Strat.enhanced, Strat.contour] := by
    unfold strategyTrace extract_meter_reading_run
    split
    · left; rfl
    · cases hp : primaryCandidate env with
      | some t =>
        simp only [hp]
        right; left; trivial
      | none =>
        simp only [hp]
        cases he : enhancedCandidate env with
        | some t =>
          simp only [he]
          right; right; left; trivial
        | none =>
          simp only [he]
          right; right; right; trivial
  refine ⟨hcase, ?_, ?_, ?_⟩
  · intro st
    rcases hcase with h | h | h | h <;> rw [h] <;> cases st <;> decide
  · intro hsome hdec
    obtain ⟨t, ht⟩ := Option.isSome_iff_exists.mp hsome
    unfold strategyTrace extract_meter_reading_run
    rw [hdec]
    simp only [Bool.not_true, Bool.false_eq_true, if_false, ht]
  · intro hp hsome hdec
    obtain ⟨t, ht⟩ := Option.isSome_iff_exists.mp hsome
    unfold strategyTrace extract_meter_reading_run
    rw [hdec]
    simp only [Bool.not_true, Bool.false_eq_true, if_false, hp, ht]

/-- Witness for C4: a valid primary reading short-circuits the run after
the Primary strategy. -/
theorem spec_C4_witness :
    strategyTrace ⟨true, Except.ok "1234", Except.error (), none⟩ =
      [Strat.primary] :=
  (spec_C4_strategy_order ⟨true, Except.ok "1234", Except.error (), none⟩).2.2.1
    (by decide) rfl
